import Mathlib

/-!
Verification of the lead-scraper core (validators, record extraction gate,
dedup loop, result collection, contact crawler) against its specification.

String-manipulating Python functions are embedded as computable functions on
`List Char` (with `String` wrappers where the Python API traffics in strings).
External capabilities (HTTP fetch, HTML link extraction, URL resolution, the
browser page) are modelled as explicit environment parameters; everything the
Python code itself computes is translated directly from the source.
-/

namespace LeadScraper

/-! ## Python string primitives (ASCII fragment, which is all the code exercises) -/

/-- Whitespace recognised by Python `str.strip()` / regex `\s` (ASCII part):
space, tab, newline, carriage return, vertical tab, form feed. -/
def pyIsSpace (c : Char) : Bool :=
  c = ' ' || c = '\t' || c = '\n' || c = '\r' || c = '\x0b' || c = '\x0c'

/-- Python `str.strip()`: drop whitespace from both ends. -/
def pyStripL (l : List Char) : List Char :=
  ((l.dropWhile pyIsSpace).reverse.dropWhile pyIsSpace).reverse

/-- Python `str.lower()` on the ASCII letters (the only case the scraper meets). -/
def pyLowerL (l : List Char) : List Char :=
  l.map Char.toLower

/-- Python `str.isdigit()` (ASCII fragment): nonempty and all digits. -/
def pyIsdigit (l : List Char) : Bool :=
  !l.isEmpty && l.all Char.isDigit

/-- Regex `\w` (ASCII fragment): letters, digits, underscore. -/
def wordChar (c : Char) : Bool :=
  c.isAlphanum || c = '_'

/-! ## validators.py : US phone normalization -/

/-- Separator class `[\s.-]` of `US_PHONE_REGEX`. -/
def sepChar (c : Char) : Bool :=
  pyIsSpace c || c = '.' || c = '-'

/-- Consume the optional separator `[\s.-]?`.  The characters that may follow
(digits, `(`) are disjoint from the separator class, so the greedy choice is
deterministic. -/
def optSep (l : List Char) : List Char :=
  match l with
  | c :: r => if sepChar c then r else l
  | [] => []

/-- Consume exactly `n` digits (`\d{n}`). -/
def matchDigits : Nat → List Char → Option (List Char)
  | 0, l => some l
  | _ + 1, [] => none
  | n + 1, c :: r => if c.isDigit then matchDigits n r else none

/-- Consume the area-code alternative `(?:\(\d{3}\)|\d{3})`.  The branches are
distinguished by their first character, so no backtracking is needed. -/
def matchArea (l : List Char) : Option (List Char) :=
  match l with
  | '(' :: r =>
    match matchDigits 3 r with
    | some (')' :: r2) => some r2
    | _ => none
  | _ => matchDigits 3 l

/-- Matcher for `US_PHONE_REGEX` from `validators.py`:
`^(?:\+1[\s.-]?)?(?:\(\d{3}\)|\d{3})[\s.-]?\d{3}[\s.-]?\d{4}$`.
All alternations in the pattern are determined by the next character
(separators, digits and parentheses are pairwise disjoint classes), so this
direct one-pass matcher is equivalent to the backtracking engine. -/
def usPhoneRegexAccepts (l : List Char) : Bool :=
  let afterCc : Option (List Char) :=
    match l with
    | '+' :: r =>
      match r with
      | '1' :: r2 => some (optSep r2)
      | _ => none
    | _ => some l
  match afterCc with
  | none => false
  | some l2 =>
    match matchArea l2 with
    | none => false
    | some l3 =>
      match matchDigits 3 (optSep l3) with
      | none => false
      | some l5 =>
        match matchDigits 4 (optSep l5) with
        | none => false
        | some l7 => l7.isEmpty

/-- Translation of `is_valid_us_phone` (`validators.py` lines 33-39): the fast
path accepts `+1` followed by exactly ten digits; otherwise the stripped value
is checked against `US_PHONE_REGEX`. -/
def isValidUsPhoneCore (v : List Char) : Bool :=
  if v.isEmpty then false
  else if v.take 2 = ['+', '1'] && v.length = 12 && pyIsdigit (v.drop 2) then true
  else usPhoneRegexAccepts (pyStripL v)

def is_valid_us_phone (s : String) : Bool :=
  isValidUsPhoneCore s.data

/-- Digit-stripping and country-code drop of `normalize_us_phone`
(`validators.py` lines 21-23): `digits = re.sub(r"\D", "", value)`, then
`digits = digits[1:]` when there are exactly 11 digits starting with `1`.
This value is what the claims call "the subscriber digits". -/
def subscriberDigits (l : List Char) : List Char :=
  let digits := l.filter Char.isDigit
  if digits.length = 11 && digits.head? = some '1' then digits.drop 1 else digits

/-- Translation of `normalize_us_phone` (`validators.py` lines 16-30):
after the digit stripping and country-code drop of `subscriberDigits`,
demand exactly ten digits, prefix `+1`, and confirm with
`is_valid_us_phone`. -/
def normalizeUsPhoneCore (l : List Char) : Option (List Char) :=
  if l.isEmpty then none
  else if (subscriberDigits l).length ≠ 10 then none
  else if isValidUsPhoneCore ('+' :: '1' :: subscriberDigits l) then
    some ('+' :: '1' :: subscriberDigits l)
  else none

def normalize_us_phone (s : String) : Option String :=
  (normalizeUsPhoneCore s.data).map fun l => ⟨l⟩

/-! ## maps_scraper.py : address parsing and the acceptance gate -/

/-- Search for the regex `\b([A-Z]{2})\b` (the state-token search in
`_parse_city_state`), returning the first match, scanning match-start
positions left to right.  `prevW` records whether the character immediately
before the current position is a `\w` character, which decides the leading
word boundary; the trailing boundary looks at the character after the two
capitals. -/
def findStateToken : Bool → List Char → Option (List Char)
  | _, [] => none
  | prevW, a :: rest =>
    match rest with
    | [] => none
    | b :: rest2 =>
      if a.isUpper && b.isUpper && !prevW &&
          (match rest2 with | [] => true | c :: _ => !wordChar c) then
        some [a, b]
      else
        findStateToken (wordChar a) (b :: rest2)

/-- Python `str.split(",")`: split on every comma, preserving empty segments. -/
def splitComma : List Char → List (List Char)
  | [] => [[]]
  | c :: r =>
    if c = ',' then [] :: splitComma r
    else
      match splitComma r with
      | [] => [[c]]
      | s :: ss => (c :: s) :: ss

/-- Regex substitution `re.sub(r"\d+", "", city)`: removing digit runs removes
exactly the digit characters. -/
def stripDigitChars (l : List Char) : List Char :=
  l.filter fun c => !c.isDigit

/-- Translation of `_parse_city_state` (`maps_scraper.py` lines 245-265). -/
def parseCityStateCore (address : List Char) : List Char × List Char :=
  let parts := ((splitComma address).map pyStripL).filter fun p => !p.isEmpty
  if parts.length < 2 then ([], [])
  else
    let state := (findStateToken false (parts.getLastD [])).getD []
    let city :=
      if parts.length ≥ 3 then (parts.drop (parts.length - 2)).headD []
      else parts.getLastD []
    (pyStripL (stripDigitChars city), state)

def _parse_city_state (address : String) : String × String :=
  let p := parseCityStateCore address.data
  (⟨p.1⟩, ⟨p.2⟩)

/-- Lead record from `models.py`. -/
structure Lead where
  name : String
  org_type : String
  phone : String
  email : String
  address : String
  city : String
  state : String
deriving DecidableEq, Repr

/-- Translation of `_parse_place` (`maps_scraper.py` lines 167-193), with the
page interactions factored out: `name`, `address` and `rawPhone` are the texts
the ordered selector fallbacks produced (empty when absent), and `email` is
the value `find_email` resolved for the website.  The Python truthiness gate
`if not name or not address or not phone or not email` is the emptiness /
`Option` test below. -/
def _parse_place (name address rawPhone : String) (email : Option String)
    (orgType : String) : Option Lead :=
  match normalize_us_phone rawPhone, email with
  | some p, some e =>
    if name == "" || address == "" || p == "" || e == "" then none
    else
      let cs := _parse_city_state address
      if cs.1 == "" || cs.2 != "CA" then none
      else some ⟨name, orgType, p, e, address, cs.1, cs.2⟩
  | _, _ => none

/-! ## Theorems: validators and the acceptance gate -/

theorem subscriberDigits_all_digit (l : List Char) :
    ∀ c ∈ subscriberDigits l, c.isDigit := by
  intro c hc
  simp only [subscriberDigits] at hc
  split at hc
  · exact (List.mem_filter.mp (List.mem_of_mem_drop hc)).2
  · exact (List.mem_filter.mp hc).2

theorem isValidUsPhoneCore_fast (ds : List Char) (hlen : ds.length = 10)
    (hdig : ∀ c ∈ ds, c.isDigit) :
    isValidUsPhoneCore ('+' :: '1' :: ds) = true := by
  have hne : ds ≠ [] := by intro h; subst h; simp at hlen
  simp [isValidUsPhoneCore, pyIsdigit, List.all_eq_true, hdig, hlen, hne]
  exact Or.inl hdig

theorem normalizeUsPhoneCore_eq (l : List Char) :
    normalizeUsPhoneCore l =
      if (subscriberDigits l).length = 10 then some ('+' :: '1' :: subscriberDigits l)
      else none := by
  cases heq : l.isEmpty with
  | true =>
    have hl : l = [] := by simpa using heq
    subst hl
    simp [normalizeUsPhoneCore, subscriberDigits]
  | false =>
    unfold normalizeUsPhoneCore
    rw [if_neg (by simp [heq])]
    by_cases h10 : (subscriberDigits l).length = 10
    · rw [if_neg (by simp [h10]),
        if_pos (isValidUsPhoneCore_fast _ h10 (subscriberDigits_all_digit l)), if_pos h10]
    · rw [if_pos h10, if_neg h10]

/-- C2: `normalize_us_phone` strips all non-digit characters, drops a leading
`1` when exactly 11 digits remain, and returns `+1` followed by the remaining
digits precisely when exactly 10 digits remain (`none` otherwise); hence any
two inputs with the same subscriber digits normalize identically. -/
theorem normalize_us_phone_spec :
    (∀ s : String, normalize_us_phone s =
      if (subscriberDigits s.data).length = 10
      then some ⟨'+' :: '1' :: subscriberDigits s.data⟩ else none) ∧
    (∀ s₁ s₂ : String, (subscriberDigits s₁.data).length = 10 →
      subscriberDigits s₁.data = subscriberDigits s₂.data →
      normalize_us_phone s₁ = normalize_us_phone s₂) := by
  have key : ∀ s : String, normalize_us_phone s =
      if (subscriberDigits s.data).length = 10
      then some ⟨'+' :: '1' :: subscriberDigits s.data⟩ else none := by
    intro s
    unfold normalize_us_phone
    rw [normalizeUsPhoneCore_eq]
    split <;> simp
  refine ⟨key, fun s₁ s₂ _ heq => ?_⟩
  rw [key, key, heq]

/-- C2 witness: two renderings of the same subscriber digits. -/
theorem normalize_us_phone_spec_witness :
    (subscriberDigits ("(415) 555-2671".data)).length = 10 ∧
    subscriberDigits ("(415) 555-2671".data) = subscriberDigits ("+1 415.555.2671".data) ∧
    normalize_us_phone "(415) 555-2671" = normalize_us_phone "+1 415.555.2671" :=
  ⟨by decide, by decide,
    normalize_us_phone_spec.2 "(415) 555-2671" "+1 415.555.2671" (by decide) (by decide)⟩

/-- C3 counterexample: on the address `"PO Box 5, TX"`, `_parse_city_state`
does not return `("PO Box", "TX")` as the claim states: for a two-segment
address the code assigns `parts[-1]` (the state segment) to `city`. -/
theorem parse_city_state_po_box_cex :
    _parse_city_state "PO Box 5, TX" ≠ ("PO Box", "TX") := by decide

/-- C3 amended: the address `"PO Box 5, TX"` parses to `city = "TX"` (the
last segment, digits stripped and trimmed) and `state = "TX"`. -/
theorem parse_city_state_po_box :
    _parse_city_state "PO Box 5, TX" = ("TX", "TX") := by decide

theorem parse_place_eq_some_iff (name address rawPhone : String)
    (email : Option String) (orgType : String) (L : Lead) :
    _parse_place name address rawPhone email orgType = some L ↔
      ∃ p e, normalize_us_phone rawPhone = some p ∧ email = some e ∧
        name ≠ "" ∧ address ≠ "" ∧ p ≠ "" ∧ e ≠ "" ∧
        (_parse_city_state address).1 ≠ "" ∧ (_parse_city_state address).2 = "CA" ∧
        L = ⟨name, orgType, p, e, address, (_parse_city_state address).1,
             (_parse_city_state address).2⟩ := by
  unfold _parse_place
  rcases normalize_us_phone rawPhone with _ | p <;> rcases email with _ | e <;> simp
  constructor
  · rintro ⟨⟨⟨⟨hn, ha⟩, hp⟩, he⟩, ⟨hc, hs⟩, rfl⟩
    exact ⟨hn, ha, hp, he, hc, hs, rfl⟩
  · rintro ⟨hn, ha, hp, he, hc, hs, rfl⟩
    exact ⟨⟨⟨⟨hn, ha⟩, hp⟩, he⟩, ⟨hc, hs⟩, rfl⟩

/-- C1: `_parse_place` returns `none` unless the extracted name, address,
normalized phone and resolved email are all non-empty and the parsed city is
non-empty with parsed state equal to the configured region code `"CA"`; and
any returned `Lead` satisfies all of these conditions. -/
theorem parse_place_gate (name address rawPhone : String) (email : Option String)
    (orgType : String) :
    (∀ L : Lead, _parse_place name address rawPhone email orgType = some L →
      L.name ≠ "" ∧ L.address ≠ "" ∧ L.phone ≠ "" ∧ L.email ≠ "" ∧
      L.city ≠ "" ∧ L.state = "CA") ∧
    (¬ (name ≠ "" ∧ address ≠ "" ∧
          (∃ p, normalize_us_phone rawPhone = some p ∧ p ≠ "") ∧
          (∃ e, email = some e ∧ e ≠ "") ∧
          (_parse_city_state address).1 ≠ "" ∧ (_parse_city_state address).2 = "CA") →
      _parse_place name address rawPhone email orgType = none) := by
  constructor
  · intro L hL
    rcases (parse_place_eq_some_iff name address rawPhone email orgType L).mp hL with
      ⟨p, e, -, -, hn, ha, hp, he, hc, hs, rfl⟩
    exact ⟨hn, ha, hp, he, hc, hs⟩
  · intro hneg
    rcases hres : _parse_place name address rawPhone email orgType with _ | L
    · rfl
    · exfalso
      rcases (parse_place_eq_some_iff name address rawPhone email orgType L).mp hres with
        ⟨p, e, hphone, hemail, hn, ha, hp, he, hc, hs, -⟩
      exact hneg ⟨hn, ha, ⟨p, hphone, hp⟩, ⟨e, hemail, he⟩, hc, hs⟩

/-- C1 witness: a complete record passes the gate and yields a `Lead`
satisfying the gate conditions. -/
theorem parse_place_gate_witness :
    ("Grace Cathedral" : String) ≠ "" ∧ ("1100 California St, San Francisco, CA 94108" : String) ≠ "" ∧
    ("+14157496300" : String) ≠ "" ∧ ("info@gracecathedral.org" : String) ≠ "" ∧
    ("San Francisco" : String) ≠ "" ∧ ("CA" : String) = "CA" :=
  (parse_place_gate "Grace Cathedral" "1100 California St, San Francisco, CA 94108"
      "(415) 749-6300" (some "info@gracecathedral.org") "Church").1
    ⟨"Grace Cathedral", "Church", "+14157496300", "info@gracecathedral.org",
      "1100 California St, San Francisco, CA 94108", "San Francisco", "CA"⟩
    (by decide)

/-! ## maps_scraper.py : the scrape loop (dedup and ordering) -/

/-- Search target from `maps_scraper.py`. -/
structure SearchTarget where
  query : String
  org_type : String
  max_items : Nat

/-- Environment for `scrape`: `collect` stands for `_collect_place_urls` on
the live page (its own loop is modelled separately below), and `parse` stands
for `_parse_place` at a given place URL and org type — an exception caught by
the `try` block and a rejected record both yield `none`, since both are
skipped with `continue`. -/
structure ScrapeEnv where
  collect : SearchTarget → List String
  parse : String → String → Option Lead

/-- Dedup key `f"{lead.name.lower()}|{lead.phone}|{lead.address.lower()}"`
(`maps_scraper.py` line 57). -/
def leadKey (L : Lead) : String :=
  ⟨pyLowerL L.name.data ++ '|' :: L.phone.data ++ '|' :: pyLowerL L.address.data⟩

/-- Inner loop of `scrape` over the collected place URLs (`maps_scraper.py`
lines 47-61): parse each place, skip failures, and for accepted leads skip
keys already seen, otherwise record the key and append the lead. -/
def scrapeUrls (env : ScrapeEnv) (orgType : String) :
    List String → List String × List Lead → List String × List Lead
  | [], st => st
  | u :: rest, (seen, acc) =>
    match env.parse u orgType with
    | none => scrapeUrls env orgType rest (seen, acc)
    | some L =>
      if leadKey L ∈ seen then scrapeUrls env orgType rest (seen, acc)
      else scrapeUrls env orgType rest (leadKey L :: seen, acc ++ [L])

/-- Outer loop of `scrape` (`maps_scraper.py` lines 42-61): targets in the
order supplied, one shared seen-key set and output list across the run. -/
def scrapeGo (env : ScrapeEnv) :
    List SearchTarget → List String × List Lead → List String × List Lead
  | [], st => st
  | t :: ts, st => scrapeGo env ts (scrapeUrls env t.org_type (env.collect t) st)

/-- Translation of `scrape` (`maps_scraper.py` lines 32-65). -/
def scrape (env : ScrapeEnv) (targets : List SearchTarget) : List Lead :=
  (scrapeGo env targets ([], [])).2

/-- Stream of leads accepted by the extractor across a run, in encounter
order, before deduplication. -/
def acceptedLeads (env : ScrapeEnv) (targets : List SearchTarget) : List Lead :=
  targets.flatMap fun t => (env.collect t).filterMap fun u => env.parse u t.org_type

/-- Seen-key set after feeding a lead stream through first-occurrence dedup. -/
def dedupSeenFrom (seen : List String) : List Lead → List String
  | [] => seen
  | L :: rest =>
    if leadKey L ∈ seen then dedupSeenFrom seen rest
    else dedupSeenFrom (leadKey L :: seen) rest

/-- First-occurrence deduplication of a lead stream by `leadKey`. -/
def dedupFirstFrom (seen : List String) : List Lead → List Lead
  | [] => []
  | L :: rest =>
    if leadKey L ∈ seen then dedupFirstFrom seen rest
    else L :: dedupFirstFrom (leadKey L :: seen) rest

def dedupFirst (l : List Lead) : List Lead :=
  dedupFirstFrom [] l

theorem scrapeUrls_eq (env : ScrapeEnv) (orgType : String) :
    ∀ (urls : List String) (seen : List String) (acc : List Lead),
      scrapeUrls env orgType urls (seen, acc) =
        (dedupSeenFrom seen (urls.filterMap fun u => env.parse u orgType),
         acc ++ dedupFirstFrom seen (urls.filterMap fun u => env.parse u orgType)) := by
  intro urls
  induction urls with
  | nil => intro seen acc; simp [scrapeUrls, dedupSeenFrom, dedupFirstFrom]
  | cons u rest ih =>
    intro seen acc
    simp only [scrapeUrls, List.filterMap_cons]
    cases hp : env.parse u orgType with
    | none => simpa using ih seen acc
    | some L =>
      simp only [dedupSeenFrom, dedupFirstFrom]
      by_cases hmem : leadKey L ∈ seen
      · rw [if_pos hmem, if_pos hmem, if_pos hmem]
        exact ih seen acc
      · rw [if_neg hmem, if_neg hmem, if_neg hmem]
        rw [ih (leadKey L :: seen) (acc ++ [L])]
        simp

theorem dedupSeenFrom_append (seen : List String) (a b : List Lead) :
    dedupSeenFrom seen (a ++ b) = dedupSeenFrom (dedupSeenFrom seen a) b := by
  induction a generalizing seen with
  | nil => simp [dedupSeenFrom]
  | cons L rest ih =>
    simp only [List.cons_append, dedupSeenFrom, List.append_eq]
    by_cases hmem : leadKey L ∈ seen
    · rw [if_pos hmem, if_pos hmem, ih]
    · rw [if_neg hmem, if_neg hmem, ih]

theorem dedupFirstFrom_append (seen : List String) (a b : List Lead) :
    dedupFirstFrom seen (a ++ b) =
      dedupFirstFrom seen a ++ dedupFirstFrom (dedupSeenFrom seen a) b := by
  induction a generalizing seen with
  | nil => simp [dedupFirstFrom, dedupSeenFrom]
  | cons L rest ih =>
    simp only [List.cons_append, dedupFirstFrom, dedupSeenFrom, List.append_eq]
    by_cases hmem : leadKey L ∈ seen
    · rw [if_pos hmem, if_pos hmem, if_pos hmem, ih]
    · rw [if_neg hmem, if_neg hmem, if_neg hmem, ih]
      simp

theorem scrapeGo_eq (env : ScrapeEnv) :
    ∀ (targets : List SearchTarget) (seen : List String) (acc : List Lead),
      scrapeGo env targets (seen, acc) =
        (dedupSeenFrom seen (acceptedLeads env targets),
         acc ++ dedupFirstFrom seen (acceptedLeads env targets)) := by
  intro targets
  induction targets with
  | nil => intro seen acc; simp [scrapeGo, acceptedLeads, dedupSeenFrom, dedupFirstFrom]
  | cons t ts ih =>
    intro seen acc
    simp only [scrapeGo, acceptedLeads, List.flatMap_cons]
    rw [scrapeUrls_eq, ih, dedupSeenFrom_append, dedupFirstFrom_append]
    simp [acceptedLeads]

theorem dedupFirstFrom_fresh (l : List Lead) :
    ∀ seen, ∀ L ∈ dedupFirstFrom seen l, leadKey L ∉ seen := by
  induction l with
  | nil => intro seen L hL; simp [dedupFirstFrom] at hL
  | cons M rest ih =>
    intro seen L hL
    simp only [dedupFirstFrom] at hL
    by_cases hmem : leadKey M ∈ seen
    · rw [if_pos hmem] at hL
      exact ih seen L hL
    · rw [if_neg hmem] at hL
      rcases List.mem_cons.mp hL with rfl | hL2
      · exact hmem
      · intro hcontra
        exact ih (leadKey M :: seen) L hL2 (List.mem_cons_of_mem _ hcontra)

theorem dedupFirstFrom_pairwise (l : List Lead) :
    ∀ seen, (dedupFirstFrom seen l).Pairwise (fun a b => leadKey a ≠ leadKey b) := by
  induction l with
  | nil => intro seen; simp [dedupFirstFrom]
  | cons M rest ih =>
    intro seen
    simp only [dedupFirstFrom]
    by_cases hmem : leadKey M ∈ seen
    · rw [if_pos hmem]; exact ih seen
    · rw [if_neg hmem]
      refine List.Pairwise.cons ?_ (ih (leadKey M :: seen))
      intro L hL heq
      exact dedupFirstFrom_fresh rest (leadKey M :: seen) L hL (heq ▸ List.mem_cons_self _ _)

theorem dedupFirstFrom_sublist (l : List Lead) :
    ∀ seen, (dedupFirstFrom seen l).Sublist l := by
  induction l with
  | nil => intro seen; simp [dedupFirstFrom]
  | cons M rest ih =>
    intro seen
    simp only [dedupFirstFrom]
    by_cases hmem : leadKey M ∈ seen
    · rw [if_pos hmem]; exact (ih seen).cons M
    · rw [if_neg hmem]; exact (ih (leadKey M :: seen)).cons₂ M

/-- C4: over a whole run, `scrape` is exactly the first-occurrence dedup by
key `lowercase(name)|phone|lowercase(address)` of the stream of accepted
leads taken in encounter order (targets processed in the order supplied); in
particular no two output leads share a dedup key and the output is an
order-preserving subsequence of that stream. -/
theorem scrape_dedup (env : ScrapeEnv) (targets : List SearchTarget) :
    scrape env targets = dedupFirst (acceptedLeads env targets) ∧
    (scrape env targets).Pairwise (fun a b => leadKey a ≠ leadKey b) ∧
    (scrape env targets).Sublist (acceptedLeads env targets) := by
  have heq : scrape env targets = dedupFirst (acceptedLeads env targets) := by
    unfold scrape dedupFirst
    rw [scrapeGo_eq]
    simp
  refine ⟨heq, ?_, ?_⟩
  · rw [heq]; exact dedupFirstFrom_pairwise _ _
  · rw [heq]; exact dedupFirstFrom_sublist _ _

/-! ## maps_scraper.py : the result-collection loop -/

/-- Python substring test `needle in haystack`. -/
def containsSubL (needle : List Char) : List Char → Bool
  | [] => needle.isEmpty
  | c :: r => needle.isPrefixOf (c :: r) || containsSubL needle r

def containsSub (needle haystack : String) : Bool :=
  containsSubL needle.data haystack.data

/-- Translation of `_normalize_maps_url` (`maps_scraper.py` lines 267-269):
`url.split("&", 1)[0]` is the prefix before the first `&`. -/
def _normalize_maps_url (url : String) : String :=
  ⟨url.data.takeWhile (fun c => c ≠ '&')⟩

/-- Environment for `_collect_place_urls`: whether a search input could be
located (lines 70-78), and, per round, the rendered result-card hrefs the two
locator calls produce (`cards.count()` / `get_attribute("href")`, which may
yield no value). -/
structure CollectEnv where
  searchInputFound : Bool
  cards : Nat → List (Option String)

/-- One collection round (`maps_scraper.py` lines 91-96): keep hrefs that are
truthy and contain `"/maps/place/"`, normalize them, and add them to the
accumulating set.  The Python `set` is modelled as an insertion-ordered list
without duplicates, so its length is the set's cardinality. -/
def addCards (urls : List String) : List (Option String) → List String
  | [] => urls
  | none :: rest => addCards urls rest
  | some h :: rest =>
    if h != "" && containsSub "/maps/place/" h then
      let v := _normalize_maps_url h
      if v ∈ urls then addCards urls rest else addCards (urls ++ [v]) rest
    else addCards urls rest

/-- Scroll-and-collect loop of `_collect_place_urls` (`maps_scraper.py`
lines 86-115): up to 120 rounds, breaking once `max_items` distinct URLs are
collected or after 7 consecutive stagnant rounds. -/
def collectLoop (env : CollectEnv) (maxItems : Nat) :
    List Nat → List String → Nat → Nat → List String
  | [], urls, _, _ => urls
  | r :: rest, urls, stagnant, prev =>
    let urls2 := addCards urls (env.cards r)
    if urls2.length ≥ maxItems then urls2
    else
      let stagnant2 := if urls2.length = prev then stagnant + 1 else 0
      if stagnant2 ≥ 7 then urls2
      else collectLoop env maxItems rest urls2 stagnant2 urls2.length

/-- Translation of `_collect_place_urls` (`maps_scraper.py` lines 67-117):
an unlocatable search box aborts with `[]`; otherwise the collected set is
returned truncated to `max_items`. -/
def _collect_place_urls (env : CollectEnv) (maxItems : Nat) : List String :=
  if !env.searchInputFound then []
  else (collectLoop env maxItems (List.range 120) [] 0 0).take maxItems

/-- C7: for every environment and `max_items = N > 0`, the collection
returned by `_collect_place_urls` contains at most `N` candidate locations. -/
theorem collect_place_urls_bound (env : CollectEnv) (maxItems : Nat)
    (hpos : 0 < maxItems) :
    (_collect_place_urls env maxItems).length ≤ maxItems := by
  unfold _collect_place_urls
  split
  · simp
  · simp [List.length_take]

/-- Concrete environment witnessing `collect_place_urls_bound`: one rendered
card per round. -/
def collectEnvW : CollectEnv :=
  ⟨true, fun _ => [some "https://www.google.com/maps/place/First+Church&entry=x",
                   some "https://www.google.com/maps/place/Mercy+Hospital&entry=y"]⟩

/-- C7 witness. -/
theorem collect_place_urls_bound_witness :
    0 < 1 ∧ (_collect_place_urls collectEnvW 1).length ≤ 1 :=
  ⟨by decide, collect_place_urls_bound collectEnvW 1 (by decide)⟩

/-! ## validators.py : the email regex

`EMAIL_REGEX = \b[A-Za-z0-9._%+-]+@[A-Za-z0-9.-]+\.[A-Za-z]{2,}\b` (the
`IGNORECASE` flag is inert: every class already contains both cases).  The
embedding is a direct matcher for this one pattern; `@` does not occur in the
local class, so the greedy local run never backtracks, while the greedy
domain run backtracks over where `\.[A-Za-z]{2,}\b` starts, longest split
first, exactly as the engine does. -/

/-- Character class `[A-Za-z0-9._%+-]` (local part). -/
def localChar (c : Char) : Bool :=
  c.isAlphanum || c = '.' || c = '_' || c = '%' || c = '+' || c = '-'

/-- Character class `[A-Za-z0-9.-]` (domain part). -/
def domChar (c : Char) : Bool :=
  c.isAlphanum || c = '.' || c = '-'

/-- Attempt `\.[A-Za-z]{2,}\b` at offset `k` into the text after the `@`: a
dot at `k`, then a greedy letter run of length at least two, then a word
boundary.  Shrinking the letter run cannot restore a failed boundary (the
next character would be a letter, hence a word character), so only the
maximal run is tried.  Returns the matched length from offset zero. -/
def tryDot (rest2 : List Char) (k : Nat) : Option Nat :=
  match rest2.drop k with
  | '.' :: tl =>
    let t := (tl.takeWhile Char.isAlpha).length
    if 2 ≤ t then
      match tl.drop t with
      | [] => some (k + 1 + t)
      | c :: _ => if wordChar c then none else some (k + 1 + t)
    else none
  | _ => none

/-- Backtracking of the greedy `[A-Za-z0-9.-]+`: try the longest split
first, down to a single consumed character. -/
def searchDomSplit : Nat → List Char → Option Nat
  | 0, _ => none
  | k + 1, rest2 =>
    match tryDot rest2 (k + 1) with
    | some n => some n
    | none => searchDomSplit k rest2

/-- Attempt the full `EMAIL_REGEX` pattern at the current position; `prevW`
says whether the character before this position is a `\w` character (decides
the leading `\b`).  Returns the length of the match. -/
def matchEmailAt (prevW : Bool) (s : List Char) : Option Nat :=
  match s with
  | [] => none
  | c :: _ =>
    if !localChar c then none
    else if wordChar c == prevW then none
    else
      let k1 := (s.takeWhile localChar).length
      match s.drop k1 with
      | '@' :: rest2 =>
        match searchDomSplit (rest2.takeWhile domChar).length rest2 with
        | some n => some (k1 + 1 + n)
        | none => none
      | _ => none

/-- Scan for all non-overlapping matches of `EMAIL_REGEX`, left to right, as
`re.findall` does: after a match, scanning resumes right behind it.  The fuel
starts at the text length plus one and every step consumes at least one
character, so it never runs out. -/
def emailScan : Nat → Bool → List Char → List (List Char)
  | 0, _, _ => []
  | _ + 1, _, [] => []
  | fuel + 1, prevW, c :: rest =>
    match matchEmailAt prevW (c :: rest) with
    | some n =>
      let matched := (c :: rest).take n
      matched :: emailScan fuel (wordChar (matched.getLastD c)) ((c :: rest).drop n)
    | none => emailScan fuel (wordChar c) rest

/-- `EMAIL_REGEX.findall(text)` — the pattern has no capture groups, so the
whole matches are returned. -/
def emailFindall (l : List Char) : List (List Char) :=
  emailScan (l.length + 1) false l

/-- Image-extension filter of `extract_first_valid_email`:
`email_lower.endswith((".png", ".jpg", ".jpeg", ".svg"))`. -/
def endsWithImageExt (l : List Char) : Bool :=
  ".png".data.isSuffixOf l || ".jpg".data.isSuffixOf l ||
    ".jpeg".data.isSuffixOf l || ".svg".data.isSuffixOf l

/-- Match loop of `extract_first_valid_email` (`validators.py` lines 46-50):
lower-case each match, skip matches ending in an image extension, return the
first survivor. -/
def pickEmail : List (List Char) → Option (List Char)
  | [] => none
  | m :: rest =>
    let low := pyLowerL m
    if endsWithImageExt low then pickEmail rest else some low

/-- Translation of `extract_first_valid_email` (`validators.py` lines
42-51). -/
def extract_first_valid_email (s : String) : Option String :=
  if s.data.isEmpty then none
  else (pickEmail (emailFindall s.data)).map fun l => ⟨l⟩

/-- Anchored `EMAIL_REGEX.fullmatch`: the whole string is
`local@domain.tld`.  The decomposition is forced: `@` cannot occur in the
local class so the local run is maximal, and since the pattern must consume
the string to its end and the top-level-domain class admits letters only,
the final dot of the pattern must be the last dot of the string. -/
def emailFullmatch (l : List Char) : Bool :=
  match l with
  | [] => false
  | c :: _ =>
    if !wordChar c then false
    else
      match l.drop (l.takeWhile localChar).length with
      | '@' :: rest2 =>
        let revT := rest2.reverse.takeWhile fun c => c ≠ '.'
        if revT.length = rest2.length then false
        else
          let d := rest2.take (rest2.length - revT.length - 1)
          !d.isEmpty && d.all domChar && revT.all Char.isAlpha &&
            decide (2 ≤ revT.length)
      | _ => false

/-- Translation of `is_valid_email` (`validators.py` lines 54-55):
`bool(email and EMAIL_REGEX.fullmatch(email.strip()))`. -/
def is_valid_email (s : String) : Bool :=
  !(s == "") && emailFullmatch (pyStripL s.data)

theorem pickEmail_eq (ms : List (List Char)) :
    pickEmail ms =
      ((ms.filter fun m => !endsWithImageExt (pyLowerL m)).head?).map pyLowerL := by
  induction ms with
  | nil => rfl
  | cons m rest ih =>
    simp only [pickEmail, List.filter_cons]
    by_cases h : endsWithImageExt (pyLowerL m)
    · simp [h, ih]
    · simp [h]

/-- C9: `extract_first_valid_email` returns, lower-cased, the first
`EMAIL_REGEX` match whose lower-cased form does not end in
`.png`/`.jpg`/`.jpeg`/`.svg` (`none` when there is no such match), and on
`"contact us at info@example.com or see logo.png@x.com"` it returns
`info@example.com`. -/
theorem extract_first_valid_email_spec :
    (∀ s : String, extract_first_valid_email s =
      (((emailFindall s.data).filter fun m => !endsWithImageExt (pyLowerL m)).head?).map
        fun m => (⟨pyLowerL m⟩ : String)) ∧
    extract_first_valid_email "contact us at info@example.com or see logo.png@x.com" =
      some "info@example.com" := by
  constructor
  · intro s
    unfold extract_first_valid_email
    split
    case isTrue hempty =>
      have hnil : s.data = [] := by simpa using hempty
      simp [hnil, emailFindall, emailScan]
    case isFalse hempty =>
      rw [pickEmail_eq, Option.map_map]
      rfl
  · decide

/-! ## email_finder.py : the contact crawler -/

/-- Link as BeautifulSoup presents one `a[href]` element: the `href`
attribute value (`link.get("href", "")`) and the visible anchor text
(`link.get_text(" ", strip=True) or ""`). -/
structure Link where
  href : String
  text : String

/-- Environment for the crawler: `maxPages` is the page budget, `fetch` is
`_fetch_html` (`none` on a network error or an HTTP status of 400 or more,
otherwise the body text, possibly empty), `links` is the
`soup.select("a[href]")` extraction from a body, and `urljoin`, `netloc` and
`path` are `urllib.parse.urljoin` and `urlparse(...).netloc` / `.path`. -/
structure CrawlEnv where
  maxPages : Nat
  fetch : String → Option String
  links : String → List Link
  urljoin : String → String → String
  netloc : String → String
  path : String → String

/-- Crawl state: the FIFO `queue`, the `visited` set, and `pages_visited`. -/
structure CrawlState where
  queue : List String
  visited : List String
  pages : Nat
deriving DecidableEq, Repr

/-- `CONTACT_KEYWORDS` from `email_finder.py` line 12. -/
def CONTACT_KEYWORDS : List String := ["contact", "impressum", "about", "support"]

/-- Mailto address extraction (`email_finder.py` line 68):
`href.split(":", 1)[-1].split("?")[0].strip().lower()`. -/
def mailtoAddress (href : List Char) : List Char :=
  let after := if href.contains ':' then (href.dropWhile fun c => c ≠ ':').drop 1 else href
  pyLowerL (pyStripL (after.takeWhile fun c => c ≠ '?'))

/-- Per-page link loop (`email_finder.py` lines 62-80): either a valid mailto
address short-circuits the whole crawl, or the keyword-matching same-origin
resolved URLs are appended to the queue, in order.  A `mailto:` href whose
address fails validation falls through to the URL resolution below it, as in
the source (there is no `continue` after the failed check). -/
def processLinks (env : CrawlEnv) (n : String) (url : String) :
    List Link → Sum String (List String)
  | [] => Sum.inr []
  | link :: rest =>
    let href : String := ⟨pyStripL link.href.data⟩
    if href == "" then processLinks env n url rest
    else if "mailto:".data.isPrefixOf (pyLowerL href.data) &&
        is_valid_email ⟨mailtoAddress href.data⟩ then
      Sum.inl ⟨mailtoAddress href.data⟩
    else
      let nextUrl := env.urljoin url href
      if env.netloc nextUrl != n then processLinks env n url rest
      else
        let target : String :=
          ⟨pyLowerL ((env.path nextUrl).data ++ ' ' :: pyLowerL link.text.data)⟩
        if CONTACT_KEYWORDS.any fun kw => containsSub kw target then
          match processLinks env n url rest with
          | Sum.inl mail => Sum.inl mail
          | Sum.inr adds => Sum.inr (nextUrl :: adds)
        else processLinks env n url rest

/-- Body handling of a fetched page with content (`email_finder.py` lines
56-80): scan the body for an email first, then the links. -/
def processPage (env : CrawlEnv) (n : String) (u : String) (html : String) :
    Sum String (List String) :=
  match extract_first_valid_email html with
  | some e =>
    if e != "" && is_valid_email e then Sum.inl e
    else processLinks env n u (env.links html)
  | none => processLinks env n u (env.links html)

/-- Outcome of one iteration of the crawl loop. -/
inductive StepOut where
  | halt (res : Option String)
  | next (st : CrawlState)
deriving DecidableEq, Repr

/-- One iteration of the `while queue and pages_visited < self.max_pages`
loop of `_crawl_for_email` (`email_finder.py` lines 46-80).  The first
component is this iteration's fetch event (dequeued URL and fetch outcome),
if the iteration fetched. -/
def crawlStep (env : CrawlEnv) (n : String) (st : CrawlState) :
    List (String × Option String) × StepOut :=
  if st.pages < env.maxPages then
    match st.queue with
    | [] => ([], .halt none)
    | u :: rest =>
      if u ∈ st.visited then ([], .next ⟨rest, st.visited, st.pages⟩)
      else
        match env.fetch u with
        | none => ([(u, none)], .next ⟨rest, u :: st.visited, st.pages⟩)
        | some html =>
          if html == "" then ([(u, some html)], .next ⟨rest, u :: st.visited, st.pages⟩)
          else
            match processPage env n u html with
            | Sum.inl mail => ([(u, some html)], .halt (some mail))
            | Sum.inr adds =>
              ([(u, some html)], .next ⟨rest ++ adds, u :: st.visited, st.pages + 1⟩)
  else ([], .halt none)

/-- The crawl loop, iterated with fuel; it also returns the trace of fetch
events in order.  Exhausted fuel returns `none` with the trace so far; every
theorem below holds for every fuel, hence for the terminating Python loop. -/
def crawlLoop (env : CrawlEnv) (n : String) :
    Nat → CrawlState → Option String × List (String × Option String)
  | 0, _ => (none, [])
  | fuel + 1, st =>
    match crawlStep env n st with
    | (evts, .halt res) => (res, evts)
    | (evts, .next st2) =>
      let r := crawlLoop env n fuel st2
      (r.1, evts ++ r.2)

/-- Translation of `_crawl_for_email` (`email_finder.py` lines 40-82):
`netloc` is computed from the base URL once, the queue starts at the base
URL, the visited set empty, `pages_visited` zero. -/
def _crawl_for_email (env : CrawlEnv) (fuel : Nat) (baseUrl : String) :
    Option String × List (String × Option String) :=
  crawlLoop env (env.netloc baseUrl) fuel ⟨[baseUrl], [], 0⟩

/-- Translation of `_normalize_url` (`email_finder.py` lines 93-100). -/
def _normalize_url (url : String) : Option String :=
  let candidate : String := ⟨pyStripL url.data⟩
  if candidate == "" then none
  else if "http://".data.isPrefixOf candidate.data ||
      "https://".data.isPrefixOf candidate.data then
    some candidate
  else some ("https://" ++ candidate)

/-- Translation of `find_email` (`email_finder.py` lines 30-38). -/
def find_email (env : CrawlEnv) (fuel : Nat) (websiteUrl : Option String) :
    Option String :=
  match websiteUrl with
  | none => none
  | some w =>
    if w == "" then none
    else
      match _normalize_url w with
      | none => none
      | some normalized => (_crawl_for_email env fuel normalized).1

/-! ## Theorems: the contact crawler -/

/-- Fetch events counted against the page budget: fetches that returned a
nonempty body, exactly those on which `pages_visited` is incremented. -/
def countedEvents (tr : List (String × Option String)) :
    List (String × Option String) :=
  tr.filter fun ev => match ev.2 with | some h => h != "" | none => false

/-- Successful fetch events: no network error and no error-class status,
i.e. `_fetch_html` returned a body (possibly empty). -/
def okEvents (tr : List (String × Option String)) :
    List (String × Option String) :=
  tr.filter fun ev => ev.2.isSome

/-- Emails the crawler is allowed to return: entirely lowercase (no ASCII
uppercase letter) and passing `is_valid_email`. -/
def GoodEmail (e : String) : Prop :=
  (e.data.all fun c => !c.isUpper) = true ∧ is_valid_email e = true

theorem toLower_isUpper_false (c : Char) : (Char.toLower c).isUpper = false := by
  have hdef : Char.toLower c =
      if c.toNat ≥ 65 ∧ c.toNat ≤ 90 then Char.ofNat (c.toNat + 32) else c := rfl
  rw [hdef]
  split
  case isTrue h =>
    obtain ⟨h1, h2⟩ := h
    have hvalid : (Char.toNat c + 32).isValidChar := Or.inl (by omega)
    have hto : (Char.ofNat (Char.toNat c + 32)).toNat = Char.toNat c + 32 := by
      unfold Char.ofNat
      rw [dif_pos hvalid]
      simp [Char.ofNatAux, Char.toNat, UInt32.toNat]
    simp only [Char.isUpper, Bool.and_eq_false_iff]
    right
    simp only [decide_eq_false_iff_not]
    intro hle
    rw [UInt32.le_def, BitVec.le_def] at hle
    have h90 : (Char.ofNat (Char.toNat c + 32)).toNat ≤ 90 := hle
    omega
  case isFalse h =>
    simp only [Char.isUpper, Bool.and_eq_false_iff]
    by_cases h65 : c.val ≥ 65
    · right
      simp only [decide_eq_false_iff_not]
      intro hle
      rw [UInt32.le_def, BitVec.le_def] at hle
      rw [ge_iff_le, UInt32.le_def, BitVec.le_def] at h65
      exact h ⟨h65, hle⟩
    · left
      simp only [decide_eq_false_iff_not]
      exact h65

theorem pyLowerL_no_upper (l : List Char) :
    ((pyLowerL l).all fun c => !c.isUpper) = true := by
  simp only [pyLowerL, List.all_eq_true, List.mem_map]
  rintro c ⟨a, -, rfl⟩
  simp [toLower_isUpper_false]

theorem processLinks_inl (env : CrawlEnv) (n url : String) (ls : List Link)
    (mail : String) (h : processLinks env n url ls = Sum.inl mail) :
    GoodEmail mail := by
  induction ls with
  | nil => simp [processLinks] at h
  | cons link rest ih =>
    simp only [processLinks] at h
    split at h
    · exact ih h
    · split at h
      case isTrue hm =>
        obtain ⟨rfl⟩ : mail = ⟨mailtoAddress (pyStripL link.href.data)⟩ := by
          cases h; rfl
        refine ⟨?_, (Bool.and_eq_true _ _ |>.mp hm).2⟩
        simp only [mailtoAddress]
        exact pyLowerL_no_upper _
      case isFalse hm =>
        split at h
        · exact ih h
        · split at h
          · split at h
            case h_1 mail2 heq =>
              cases h
              exact ih heq
            case h_2 adds heq =>
              cases h
          · exact ih h

theorem processLinks_inr (env : CrawlEnv) (n url : String) (ls : List Link)
    (adds : List String) (h : processLinks env n url ls = Sum.inr adds) :
    ∀ a ∈ adds, env.netloc a = n := by
  induction ls generalizing adds with
  | nil =>
    simp only [processLinks] at h
    cases h
    intro a ha
    simp at ha
  | cons link rest ih =>
    simp only [processLinks] at h
    split at h
    · exact ih adds h
    · split at h
      case isTrue hm => cases h
      case isFalse hm =>
        split at h
        case isTrue hnet => exact ih adds h
        case isFalse hnet =>
          split at h
          · split at h
            case h_1 mail2 heq => cases h
            case h_2 adds2 heq =>
              cases h
              intro a ha
              rcases List.mem_cons.mp ha with rfl | ha2
              · simpa using hnet
              · exact ih adds2 heq a ha2
          · exact ih adds h

theorem extract_some_lower (s : String) (e : String)
    (h : extract_first_valid_email s = some e) :
    (e.data.all fun c => !c.isUpper) = true := by
  unfold extract_first_valid_email at h
  split at h
  · cases h
  · rw [pickEmail_eq] at h
    rcases hh : ((emailFindall s.data).filter fun m =>
        !endsWithImageExt (pyLowerL m)).head? with _ | m
    · rw [hh] at h; cases h
    · rw [hh] at h
      simp only [Option.map_some, Option.map] at h
      cases h
      exact pyLowerL_no_upper m

theorem processPage_inl (env : CrawlEnv) (n u : String) (html : String)
    (mail : String) (h : processPage env n u html = Sum.inl mail) :
    GoodEmail mail := by
  unfold processPage at h
  split at h
  case h_1 e heq =>
    split at h
    case isTrue hg =>
      cases h
      exact ⟨extract_some_lower _ _ heq, (Bool.and_eq_true _ _ |>.mp hg).2⟩
    case isFalse hg => exact processLinks_inl _ _ _ _ _ h
  case h_2 heq => exact processLinks_inl _ _ _ _ _ h

theorem processPage_inr (env : CrawlEnv) (n u : String) (html : String)
    (adds : List String) (h : processPage env n u html = Sum.inr adds) :
    ∀ a ∈ adds, env.netloc a = n := by
  unfold processPage at h
  split at h
  case h_1 e heq =>
    split at h
    case isTrue hg => cases h
    case isFalse hg => exact processLinks_inr _ _ _ _ _ h
  case h_2 heq => exact processLinks_inr _ _ _ _ _ h

theorem crawlStep_next_spec (env : CrawlEnv) (n : String) (st : CrawlState)
    (evts : List (String × Option String)) (st2 : CrawlState)
    (h : crawlStep env n st = (evts, .next st2)) :
    st.pages < env.maxPages ∧
    st2.pages = st.pages + (countedEvents evts).length ∧
    evts.length ≤ 1 ∧
    (∀ ev ∈ evts, ev.1 ∈ st.queue ∧ ev.1 ∉ st.visited ∧ ev.1 ∈ st2.visited) ∧
    (∀ x ∈ st.visited, x ∈ st2.visited) ∧
    (∀ w ∈ st2.queue, w ∈ st.queue ∨ env.netloc w = n) := by
  unfold crawlStep at h
  split at h
  case isFalse hp => simp at h
  case isTrue hp =>
    split at h
    case h_1 hq => simp at h
    case h_2 u rest hq =>
      split at h
      case isTrue hv =>
        injection h with h1 h2
        subst h1
        injection h2 with h3
        subst h3
        refine ⟨hp, by simp [countedEvents], by simp, by simp, fun x hx => hx, ?_⟩
        intro w hw
        exact Or.inl (hq ▸ List.mem_cons_of_mem _ hw)
      case isFalse hv =>
        split at h
        case h_1 hf =>
          injection h with h1 h2
          subst h1
          injection h2 with h3
          subst h3
          refine ⟨hp, by simp [countedEvents], by simp, ?_, ?_, ?_⟩
          · intro ev hev
            rcases List.mem_singleton.mp hev with rfl
            exact ⟨hq ▸ List.mem_cons_self _ _, hv, List.mem_cons_self _ _⟩
          · intro x hx
            exact List.mem_cons_of_mem _ hx
          · intro w hw
            exact Or.inl (hq ▸ List.mem_cons_of_mem _ hw)
        case h_2 html hf =>
          split at h
          case isTrue hhtml =>
            injection h with h1 h2
            subst h1
            injection h2 with h3
            subst h3
            have hem : (html != "") = false := by
              simpa using hhtml
            refine ⟨hp, by simp [countedEvents, hem], by simp, ?_, ?_, ?_⟩
            · intro ev hev
              rcases List.mem_singleton.mp hev with rfl
              exact ⟨hq ▸ List.mem_cons_self _ _, hv, List.mem_cons_self _ _⟩
            · intro x hx
              exact List.mem_cons_of_mem _ hx
            · intro w hw
              exact Or.inl (hq ▸ List.mem_cons_of_mem _ hw)
          case isFalse hhtml =>
            split at h
            case h_1 mail hpp => cases h
            case h_2 adds hpp =>
              injection h with h1 h2
              subst h1
              injection h2 with h3
              subst h3
              have hem : (html != "") = true := by
                simpa using hhtml
              refine ⟨hp, by simp [countedEvents, hem], by simp, ?_, ?_, ?_⟩
              · intro ev hev
                rcases List.mem_singleton.mp hev with rfl
                exact ⟨hq ▸ List.mem_cons_self _ _, hv, List.mem_cons_self _ _⟩
              · intro x hx
                exact List.mem_cons_of_mem _ hx
              · intro w hw
                rcases List.mem_append.mp hw with hw1 | hw2
                · exact Or.inl (hq ▸ List.mem_cons_of_mem _ hw1)
                · exact Or.inr (processPage_inr env n u html adds hpp w hw2)

theorem crawlStep_halt_spec (env : CrawlEnv) (n : String) (st : CrawlState)
    (evts : List (String × Option String)) (res : Option String)
    (h : crawlStep env n st = (evts, .halt res)) :
    (countedEvents evts).length ≤ env.maxPages - st.pages ∧
    evts.length ≤ 1 ∧
    (∀ ev ∈ evts, ev.1 ∈ st.queue ∧ ev.1 ∉ st.visited) ∧
    (∀ e, res = some e → GoodEmail e) := by
  unfold crawlStep at h
  split at h
  case isFalse hp =>
    injection h with h1 h2
    subst h1
    injection h2 with h3
    subst h3
    exact ⟨by simp [countedEvents], by simp, by simp, fun e he => by cases he⟩
  case isTrue hp =>
    split at h
    case h_1 hq =>
      injection h with h1 h2
      subst h1
      injection h2 with h3
      subst h3
      exact ⟨by simp [countedEvents], by simp, by simp, fun e he => by cases he⟩
    case h_2 u rest hq =>
      split at h
      case isTrue hv => simp at h
      case isFalse hv =>
        split at h
        case h_1 hf => simp at h
        case h_2 html hf =>
          split at h
          case isTrue hhtml => simp at h
          case isFalse hhtml =>
            split at h
            case h_1 mail hpp =>
              injection h with h1 h2
              subst h1
              injection h2 with h3
              subst h3
              refine ⟨?_, by simp, ?_, ?_⟩
              · have hem : (html != "") = true := by simpa using hhtml
                have hce : countedEvents [(u, some html)] = [(u, some html)] := by
                  simp [countedEvents, hem]
                rw [hce, List.length_singleton]
                omega
              · intro ev hev
                rcases List.mem_singleton.mp hev with rfl
                exact ⟨hq ▸ List.mem_cons_self _ _, hv⟩
              · intro e he
                cases he
                exact processPage_inl env n u html mail hpp
            case h_2 adds hpp => cases h

theorem countedEvents_append (a b : List (String × Option String)) :
    countedEvents (a ++ b) = countedEvents a ++ countedEvents b := by
  simp [countedEvents, List.filter_append]

theorem crawlLoop_budget (env : CrawlEnv) (n : String) :
    ∀ (fuel : Nat) (st : CrawlState),
      (countedEvents (crawlLoop env n fuel st).2).length ≤ env.maxPages - st.pages := by
  intro fuel
  induction fuel with
  | zero => intro st; simp [crawlLoop, countedEvents]
  | succ f ih =>
    intro st
    rcases hstep : crawlStep env n st with ⟨evts, out⟩
    cases out with
    | halt res =>
      have hs := crawlStep_halt_spec env n st evts res hstep
      simp only [crawlLoop, hstep]
      exact hs.1
    | next st2 =>
      obtain ⟨hp, hpages, hlen, -, -, -⟩ := crawlStep_next_spec env n st evts st2 hstep
      simp only [crawlLoop, hstep]
      have hrec := ih st2
      rw [countedEvents_append, List.length_append]
      have hcle : (countedEvents evts).length ≤ evts.length :=
        List.length_filter_le _ _
      omega

theorem crawlLoop_origin (env : CrawlEnv) (n : String) :
    ∀ (fuel : Nat) (st : CrawlState), (∀ u ∈ st.queue, env.netloc u = n) →
      ∀ ev ∈ (crawlLoop env n fuel st).2, env.netloc ev.1 = n := by
  intro fuel
  induction fuel with
  | zero => intro st hst ev hev; simp [crawlLoop] at hev
  | succ f ih =>
    intro st hst ev hev
    rcases hstep : crawlStep env n st with ⟨evts, out⟩
    cases out with
    | halt res =>
      obtain ⟨-, -, hevq, -⟩ := crawlStep_halt_spec env n st evts res hstep
      simp only [crawlLoop, hstep] at hev
      exact hst ev.1 (hevq ev hev).1
    | next st2 =>
      obtain ⟨-, -, -, hevq, -, hqueue⟩ := crawlStep_next_spec env n st evts st2 hstep
      simp only [crawlLoop, hstep] at hev
      rcases List.mem_append.mp hev with h1 | h2
      · exact hst ev.1 (hevq ev h1).1
      · refine ih st2 ?_ ev h2
        intro w hw
        rcases hqueue w hw with hw1 | hw2
        · exact hst w hw1
        · exact hw2

theorem crawlLoop_nodup (env : CrawlEnv) (n : String) :
    ∀ (fuel : Nat) (st : CrawlState),
      ((crawlLoop env n fuel st).2.map Prod.fst).Nodup ∧
      (∀ ev ∈ (crawlLoop env n fuel st).2, ev.1 ∉ st.visited) := by
  intro fuel
  induction fuel with
  | zero => intro st; simp [crawlLoop]
  | succ f ih =>
    intro st
    rcases hstep : crawlStep env n st with ⟨evts, out⟩
    cases out with
    | halt res =>
      obtain ⟨-, hlen, hevq, -⟩ := crawlStep_halt_spec env n st evts res hstep
      simp only [crawlLoop, hstep]
      constructor
      · rcases evts with _ | ⟨ev, rest⟩
        · simp
        · rcases rest with _ | ⟨ev2, rest2⟩
          · simp
          · simp at hlen
      · intro ev hev
        exact (hevq ev hev).2
    | next st2 =>
      obtain ⟨-, -, hlen, hevq, hvis, -⟩ := crawlStep_next_spec env n st evts st2 hstep
      obtain ⟨ihn, ihd⟩ := ih st2
      simp only [crawlLoop, hstep]
      constructor
      · rw [List.map_append]
        refine List.Nodup.append ?_ ihn ?_
        · rcases evts with _ | ⟨ev, rest⟩
          · simp
          · rcases rest with _ | ⟨ev2, rest2⟩
            · simp
            · simp at hlen
        · intro x hx1 hx2
          rcases List.mem_map.mp hx1 with ⟨ev, hev, rfl⟩
          rcases List.mem_map.mp hx2 with ⟨ev2, hev2, hx⟩
          have h1 : ev.1 ∈ st2.visited := (hevq ev hev).2.2
          have h2 : ev2.1 ∉ st2.visited := ihd ev2 hev2
          exact h2 (hx ▸ h1)
      · intro ev hev
        rcases List.mem_append.mp hev with h1 | h2
        · exact (hevq ev h1).2.1
        · intro hcontra
          exact ihd ev h2 (hvis ev.1 hcontra)

theorem crawlLoop_good (env : CrawlEnv) (n : String) :
    ∀ (fuel : Nat) (st : CrawlState) (e : String),
      (crawlLoop env n fuel st).1 = some e → GoodEmail e := by
  intro fuel
  induction fuel with
  | zero => intro st e he; simp [crawlLoop] at he
  | succ f ih =>
    intro st e he
    rcases hstep : crawlStep env n st with ⟨evts, out⟩
    cases out with
    | halt res =>
      simp only [crawlLoop, hstep] at he
      exact (crawlStep_halt_spec env n st evts res hstep).2.2.2 e he
    | next st2 =>
      simp only [crawlLoop, hstep] at he
      exact ih st2 e he

/-- Environment refuting the frozen C5: the seed page has content and two
same-origin contact links; the two linked pages answer with HTTP success and
an empty body, so they are fetched without counting against the budget. -/
def crawlEnvC5 : CrawlEnv where
  maxPages := 2
  fetch := fun u => if u = "https://a.com" then some "<p>welcome</p>" else some ""
  links := fun h =>
    if h = "<p>welcome</p>" then [⟨"/contact1", "contact"⟩, ⟨"/contact2", "contact"⟩]
    else []
  urljoin := fun u h =>
    if h = "/contact1" then "https://a.com/contact1"
    else if h = "/contact2" then "https://a.com/contact2"
    else u ++ h
  netloc := fun _ => "a.com"
  path := fun u => u

/-- C5 counterexample: with page budget 2, three pages are fetched
successfully (no network error, no error-class HTTP status) before the crawl
returns: successful fetches with empty bodies do not count against the
budget. -/
theorem crawl_budget_cex :
    ¬ ((okEvents (_crawl_for_email crawlEnvC5 10 "https://a.com").2).length ≤
        crawlEnvC5.maxPages) := by decide

/-- C5 amended: at most `max_pages` pages with nonempty content are fetched
before the crawl returns (empty-body successes, like failed fetches, do not
count); a fetch that fails is skipped without counting against the page
budget, without enqueueing any links, and without touching the page
counter. -/
theorem crawl_budget_amended (env : CrawlEnv) (fuel : Nat) (baseUrl : String) :
    (countedEvents (_crawl_for_email env fuel baseUrl).2).length ≤ env.maxPages ∧
    (∀ (u : String) (q v : List String) (p : Nat),
      u ∉ v → p < env.maxPages → env.fetch u = none →
      crawlStep env (env.netloc baseUrl) ⟨u :: q, v, p⟩ =
        ([(u, none)], .next ⟨q, u :: v, p⟩)) := by
  constructor
  · have hb := crawlLoop_budget env (env.netloc baseUrl) fuel ⟨[baseUrl], [], 0⟩
    unfold _crawl_for_email
    omega
  · intro u q v p hv hp hf
    simp [crawlStep, hp, hv, hf]

/-- Environment for the C5-amended witness: every fetch fails. -/
def crawlEnvC5w : CrawlEnv where
  maxPages := 3
  fetch := fun _ => none
  links := fun _ => []
  urljoin := fun u _ => u
  netloc := fun _ => "b.org"
  path := fun u => u

/-- C5 amended witness. -/
theorem crawl_budget_amended_witness :
    (countedEvents (_crawl_for_email crawlEnvC5w 5 "https://b.org").2).length ≤
      crawlEnvC5w.maxPages ∧
    crawlStep crawlEnvC5w (crawlEnvC5w.netloc "https://b.org")
        ⟨["https://b.org/x"], [], 0⟩ =
      ([("https://b.org/x", none)], .next ⟨[], ["https://b.org/x"], 0⟩) :=
  ⟨(crawl_budget_amended crawlEnvC5w 5 "https://b.org").1,
    (crawl_budget_amended crawlEnvC5w 5 "https://b.org").2 "https://b.org/x" [] [] 0
      (by decide) (by decide) rfl⟩

/-- C6: during a single crawl every fetched URL — the seed included — has the
same network authority as the base URL, whatever the keyword matches did. -/
theorem crawl_same_origin (env : CrawlEnv) (fuel : Nat) (baseUrl : String) :
    ((_crawl_for_email env fuel baseUrl).2.all
      fun ev => env.netloc ev.1 == env.netloc baseUrl) = true := by
  rw [List.all_eq_true]
  intro ev hev
  have horigin := crawlLoop_origin env (env.netloc baseUrl) fuel ⟨[baseUrl], [], 0⟩
    (by intro u hu; rcases List.mem_singleton.mp hu with rfl; rfl) ev hev
  exact beq_iff_eq.mpr horigin

/-- Environment refuting the frozen C8: the seed page links back to itself
with a keyword-matching same-origin link. -/
def crawlEnvC8 : CrawlEnv where
  maxPages := 6
  fetch := fun _ => some "<nav>menu</nav>"
  links := fun _ => [⟨"https://a.com/contact", "Contact"⟩]
  urljoin := fun _ h => h
  netloc := fun _ => "a.com"
  path := fun u => u

/-- C8 counterexample: processing the seed enqueues a keyword-matching
same-origin link to the seed itself, although the seed entered the visited
set when it was dequeued: the appends at line 80 of `email_finder.py` consult
neither the queue nor the visited set, so after one step the same URL sits in
both the queue and the visited set. -/
theorem crawl_enqueue_cex :
    processPage crawlEnvC8 "a.com" "https://a.com/contact" "<nav>menu</nav>" =
      Sum.inr ["https://a.com/contact"] ∧
    (crawlStep crawlEnvC8 "a.com" ⟨["https://a.com/contact"], [], 0⟩).2 =
      .next ⟨["https://a.com/contact"], ["https://a.com/contact"], 1⟩ := by
  constructor
  · decide
  · decide

/-- C8 amended: the crawler may enqueue a URL that is already queued or
visited (the append is unconditional); what the visited check on dequeue
guarantees instead is that no URL is ever fetched twice in one crawl — the
fetch trace is duplicate-free. -/
theorem crawl_no_refetch (env : CrawlEnv) (fuel : Nat) (baseUrl : String) :
    ((_crawl_for_email env fuel baseUrl).2.map Prod.fst).Nodup :=
  (crawlLoop_nodup env (env.netloc baseUrl) fuel ⟨[baseUrl], [], 0⟩).1

/-- C10: every email returned by `find_email` — from a page body or from a
`mailto:` link — is entirely lowercase and passes `is_valid_email`. -/
theorem find_email_good (env : CrawlEnv) (fuel : Nat) (w : Option String)
    (e : String) (h : find_email env fuel w = some e) :
    (e.data.all fun c => !c.isUpper) = true ∧ is_valid_email e = true := by
  rcases w with _ | ws
  · cases h
  · simp only [find_email] at h
    split at h
    · cases h
    · rcases hn : _normalize_url ws with _ | normalized <;> rw [hn] at h
      · cases h
      · exact crawlLoop_good env (env.netloc normalized) fuel ⟨[normalized], [], 0⟩ e h

/-- Environment for the C10 witness: the seed body advertises an email in
mixed case. -/
def crawlEnvC10 : CrawlEnv where
  maxPages := 6
  fetch := fun _ => some "Reach us: INFO@Example.COM"
  links := fun _ => []
  urljoin := fun u _ => u
  netloc := fun _ => "example.com"
  path := fun u => u

/-- C10 witness: the crawl finds `INFO@Example.COM` and returns it
lower-cased and valid. -/
theorem find_email_good_witness :
    (("info@example.com" : String).data.all fun c => !c.isUpper) = true ∧
      is_valid_email "info@example.com" = true :=
  find_email_good crawlEnvC10 5 (some "https://example.com") "info@example.com"
    (by decide)

end LeadScraper
